import Mathlib

/-!
Shallow embedding of the tagging subsystem of `ai-fs-agent`
(`ai_fs_agent/utils/ingest/text_processor.py`,
`ai_fs_agent/utils/ingest/file_content_model.py`,
`ai_fs_agent/utils/classify/tag_service.py`,
`ai_fs_agent/utils/classify/batch_file_tagger.py`), together with
theorems checking the natural-language specification against the code.

Python strings that are processed character by character are embedded as
`List Char`; strings that are only stored, hashed and compared are embedded
as `String`.  External collaborators (the LLM oracles, the `blake2b` and
`Simhash` library primitives) enter the model as explicit parameters,
mirroring the fact that the code treats them as black boxes.
-/

namespace AiFsAgent

/-- Python character strings processed character-wise. -/
abbrev Str := List Char

/-- Exceptions that the embedded code paths can raise. -/
inductive PyErr where
  | attributeError
  | oracleError
  | osError
  deriving DecidableEq

/-! ## `TextProcessor` (`utils/ingest/text_processor.py`) -/

/-- ASCII whitespace recognised by Python's `\s` / `str.strip()` on the
inputs relevant here. -/
def isPySpace (c : Char) : Bool :=
  c = ' ' || c = '\t' || c = '\n' || c = '\r' ||
  c = Char.ofNat 11 || c = Char.ofNat 12

/-- Helper for `re.sub(r"\s+", " ", t)`: the flag records whether the
previous character belonged to a whitespace run already replaced. -/
def squeezeWsAux : Bool → Str → Str
  | _, [] => []
  | prevWs, c :: rest =>
    if isPySpace c then
      if prevWs then squeezeWsAux true rest
      else ' ' :: squeezeWsAux true rest
    else c :: squeezeWsAux false rest

/-- `re.sub(r"\s+", " ", t)`: every maximal whitespace run becomes one space. -/
def squeezeWs (l : Str) : Str := squeezeWsAux false l

/-- Python `str.strip()`: drop leading and trailing whitespace. -/
def stripChars (l : Str) : Str :=
  ((l.dropWhile isPySpace).reverse.dropWhile isPySpace).reverse

/-- `TextProcessor.normalize` at the arguments used by every caller in the
repository (`lower=False`, `remove_punct=False`, `remove_digits=False`, so
the lower-casing and regex-substitution branches are skipped by their
guards); the two remaining flags are kept explicit. -/
def normalize (text : Str) (squeeze_ws strip : Bool) : Str :=
  let t := if squeeze_ws then squeezeWs text else text
  if strip then stripChars t else t

/-- langchain's `CharacterTextSplitter(chunk_size, chunk_overlap=0).split_text`
specialised to input that contains no newline character (guaranteed at the
call site, which feeds whitespace-squeezed text): the default separator
`"\n\n"` never occurs, so `re.split` yields the whole text as the single
split and `_merge_splits` emits it as one chunk after stripping, dropping it
when empty.  `chunk_size` does not influence this case: an oversized single
split is kept whole (the library only logs a warning). -/
def characterTextSplitter_split (_chunk_size : Nat) (text : Str) : List Str :=
  let doc := stripChars text
  if doc.isEmpty then [] else [doc]

/-- Result type of the three-part splitters (`ThreePartSections`). -/
structure ThreePartSections where
  front : Str := []
  middle : Str := []
  back : Str := []
  deriving DecidableEq

/-- `TextProcessor.split_for_tag_cache`. -/
def split_for_tag_cache (text : Str) : ThreePartSections :=
  let normalized_text := normalize text true true
  let max_total_chars := 1500
  if normalized_text.length ≤ max_total_chars then
    let third := normalized_text.length / 3
    { front := normalized_text.take third
      middle := (normalized_text.drop third).take third
      back := normalized_text.drop (2 * third) }
  else
    let chunk_size := max_total_chars / 3
    let chunks := characterTextSplitter_split chunk_size normalized_text
    let total := chunks.length
    { front := if total > 0 then chunks.headD [] else []
      middle := if total > 1 then chunks.getD (total / 2) [] else []
      back := if total ≥ 1 then chunks.getLastD [] else [] }

/-- The identity text computed by `FileContentModel.set_normalized_fields`
for the `normalized_text` field: `sections.front + sections.middle +
sections.back` of `split_for_tag_cache` applied to the raw content. -/
def identityText (content : Str) : Str :=
  let sections := split_for_tag_cache content
  sections.front ++ sections.middle ++ sections.back

/-! ## `TagCacheService` (`utils/classify/tag_service.py`) -/

/-- `TagRecord`: the cached tagging record for one piece of content.
`datetime` values are embedded as abstract `Nat` timestamps. -/
structure TagRecord where
  content_id : String
  simhash64 : Option Nat := none
  tags : List String := []
  file_description : Option String := none
  ts : Nat := 0
  deriving DecidableEq

/-- The `cache` dict of `TagCacheModel`: a `content_id -> TagRecord` map
with Python-dict semantics (insertion order preserved, assignment replaces
in place). -/
abbrev Cache := List (String × TagRecord)

/-- Python `dict.get`. -/
def dictGet : Cache → String → Option TagRecord
  | [], _ => none
  | (k, v) :: rest, key => if k = key then some v else dictGet rest key

/-- Python `dict[key] = value`: replace in place when the key exists,
append otherwise. -/
def dictSet : Cache → String → TagRecord → Cache
  | [], key, v => [(key, v)]
  | (k, w) :: rest, key, v =>
    if k = key then (key, v) :: rest else (k, w) :: dictSet rest key v

/-- Python `dict.values()` in insertion order. -/
def dictValues (c : Cache) : List TagRecord := c.map (·.2)

/-- Well-formedness of the cache dict: keys are unique and every record is
stored under its own `content_id` (both invariants hold for every cache the
service builds). -/
def Cache.WF (c : Cache) : Prop :=
  (c.map Prod.fst).Nodup ∧ ∀ kv ∈ c, kv.2.content_id = kv.1

/-- The hash primitives the service delegates to:
`hashlib.blake2b` hex digests (`textHash`) and the 64-bit `Simhash`
aggregation of the simhash library (`simhashImpl`).  Both are deterministic
pure functions of their input, which is all the code relies on. -/
structure HashParams where
  textHash : String → String
  simhashImpl : List String → Nat

/-- Python `int.bit_count()` (number of one bits), written with explicit
fuel so that it reduces structurally; `n` halvings are always enough. -/
def popCountFuel : Nat → Nat → Nat
  | 0, _ => 0
  | fuel + 1, n => if n = 0 then 0 else n % 2 + popCountFuel fuel (n / 2)

/-- Python `int.bit_count()`. -/
def popCount (n : Nat) : Nat := popCountFuel n n

/-- The n-gram features of `TagCacheService._simhash64`:
`[text]` when the text is shorter than `n`, else all windows of length `n`. -/
def ngrams (text : String) (n : Nat) : List String :=
  if text.length < n then [text]
  else (List.range (text.length - n + 1)).map (fun i => (text.drop i).take n)

/-- `TagCacheService._simhash64` (default `n = 3`), with the simhash
library's aggregation abstracted as `impl`. -/
def _simhash64 (impl : List String → Nat) (text : String) (n : Nat) : Nat :=
  impl (ngrams text n)

/-- The `for rec in cache.values()` loop of `_find_by_simhash`, carrying
`best` and `best_dist` (initially `None` and `65`); `if d == 0: break`
ends the scan early. -/
def findLoop (sh : Nat) : List TagRecord → Option TagRecord → Nat →
    Option TagRecord × Nat
  | [], best, best_dist => (best, best_dist)
  | rec :: rest, best, best_dist =>
    match rec.simhash64 with
    | none => findLoop sh rest best best_dist
    | some h =>
      let d := popCount (sh ^^^ h)
      if d < best_dist then
        if d = 0 then (some rec, d) else findLoop sh rest (some rec) d
      else findLoop sh rest best best_dist

/-- `TagCacheService._find_by_simhash`: the minimum-Hamming-distance scan
over all records with a known fingerprint; the best candidate is returned
iff its distance is at most `max_hamming`. -/
def _find_by_simhash (c : Cache) (sh max_hamming : Nat) : Option TagRecord :=
  match findLoop sh (dictValues c) none 65 with
  | (some best, best_dist) =>
    if best_dist ≤ max_hamming then some best else none
  | (none, _) => none

/-- `TagCacheService.get_by_id`; `model_copy()` is the identity under the
embedding's value semantics. -/
def get_by_id (c : Cache) (content_id : String) : Option TagRecord :=
  dictGet c content_id

/-- `TagCacheService.get_or_init_record` as a state transformer on the
cache map.  `thr` is the service's `simhash_hamming_threshold` (default 8),
`now` the `datetime.now()` timestamp of a freshly created record. -/
def get_or_init_record (p : HashParams) (thr now : Nat) (c : Cache)
    (normalized : String) (use_approx : Bool) : TagRecord × Cache :=
  let cid := p.textHash normalized
  match get_by_id c cid with
  | some hit => (hit, c)
  | none =>
    let sh := _simhash64 p.simhashImpl normalized 3
    let td :=
      if use_approx then
        match _find_by_simhash c sh thr with
        | some approx => (approx.tags, approx.file_description)
        | none => (([] : List String), (none : Option String))
      else (([] : List String), (none : Option String))
    let record : TagRecord :=
      { content_id := cid, simhash64 := some sh, tags := td.1
        file_description := td.2, ts := now }
    (record, dictSet c cid record)

/-- `TagCacheService.update_tags`: set the record's tags and timestamp and
write it back into the cache under its `content_id`. -/
def update_tags (c : Cache) (record : TagRecord) (tags : List String)
    (now : Nat) : TagRecord × Cache :=
  let r := { record with tags := tags, ts := now }
  (r, dictSet c r.content_id r)

/-- `TagCacheService.update_file_description`: set the record's description
and timestamp and write it back into the cache under its `content_id`. -/
def update_file_description (c : Cache) (record : TagRecord)
    (file_description : String) (now : Nat) : TagRecord × Cache :=
  let r := { record with file_description := some file_description, ts := now }
  (r, dictSet c r.content_id r)

/-! ### Persistence (`TagCacheModel.save`, `TagCacheService.flush`) -/

/-- Elementary file-system operations on the persisted cache file. -/
inductive FsOp where
  | truncate
  | appendChar (c : Char)
  deriving DecidableEq

/-- Effect of one operation on the file's content. -/
def applyOp (f : Str) : FsOp → Str
  | .truncate => []
  | .appendChar ch => f ++ [ch]

/-- Effect of a sequence of operations on the file's content. -/
def applyOps (f : Str) (ops : List FsOp) : Str := ops.foldl applyOp f

/-- The operations `TagCacheModel.save` performs on the target file:
`TAGS_CACHE_PATH.write_text(...)` opens the target itself in write mode
(truncating it) and then writes the serialized text; no temporary file and
no rename are involved. -/
def saveOps (serialized : Str) : List FsOp :=
  FsOp.truncate :: serialized.map FsOp.appendChar

/-- `TagCacheModel.save` seen from its caller: the `write_text` call may
raise, but `save` catches every exception and only logs it, so it always
returns normally (`Except.ok`) and never touches the in-memory cache.  On
success the file holds the serialized text; on failure it is left in
whatever state the failed write produced (`leftover`). -/
def save (c : Cache) (serialized : Str) (writeFails : Bool)
    (leftover : Str) : Except PyErr (Str × Cache) :=
  if writeFails then .ok (leftover, c) else .ok (serialized, c)

/-- `TagCacheService.flush` just delegates to `cache_model.save`. -/
def flush (c : Cache) (serialized : Str) (writeFails : Bool)
    (leftover : Str) : Except PyErr (Str × Cache) :=
  save c serialized writeFails leftover

/-! ## `BatchFileTagger` (`utils/classify/batch_file_tagger.py`)

The LLM collaborators are black boxes: the batched image-description and tagging
calls enter the model as `Except`-valued response parameters (an
`Except.error` models the batched call raising; a `none` entry models a
falsy per-item response).  Mutation of the shared `PreparedFileSample`
objects is modelled by updating the master sample list at the object's
index, which plays the role of Python object identity. -/

/-- `FileContentModel` (`utils/ingest/file_content_model.py`): exactly the
fields the pydantic model declares.  In particular there is no
`normalized_text_for_id` field; the extra keyword passed by
`FileLoader._read_image_file` / `_read_software_file` is discarded by
pydantic's default `extra='ignore'` configuration. -/
structure FileContentModel where
  file_path : String
  file_type : String := "text"
  content : String := ""
  image_base64 : Option String := none
  normalized_text : Option String := none
  normalized_text_for_tagging : Option String := none
  deriving DecidableEq

/-- Attribute access `file_content_model.normalized_text_for_id`: the
pydantic model declares no such field and stores no extra attributes, so
the access raises `AttributeError` on every instance. -/
def FileContentModel.normalized_text_for_id (_ : FileContentModel) :
    Except PyErr String :=
  .error .attributeError

/-- `PreparedFileSample`. -/
structure PreparedFileSample where
  file_content_model : FileContentModel
  cache_record : TagRecord
  deriving DecidableEq

/-- `FileTaggingResult`. -/
structure FileTaggingResult where
  file_path : String
  tags : List String := []
  deriving DecidableEq

/-- Outcome of `FileLoader.load_file` for one input path: the `ValueError`
branch (unsupported file, warned and skipped), the generic exception branch
(load failure, logged and skipped), or a successfully loaded model. -/
inductive LoadOutcome where
  | unsupported
  | loadError
  | success (m : FileContentModel)
  deriving DecidableEq

/-- `True` exactly for the outcomes whose `except` branch runs `continue`. -/
def LoadOutcome.isFailure : LoadOutcome → Bool
  | .unsupported => true
  | .loadError => true
  | .success _ => false

/-- `BatchFileTagger._load_and_prepare_samples`: failed loads are logged
and skipped (`continue`); for a loaded model the code reads
`file_content_model.normalized_text_for_id` (which raises) and would then
query `get_or_init_record`. -/
def load_and_prepare_samples (p : HashParams) (thr now : Nat) :
    Cache → List LoadOutcome →
    Except PyErr (List PreparedFileSample × Cache)
  | c, [] => .ok ([], c)
  | c, .unsupported :: rest => load_and_prepare_samples p thr now c rest
  | c, .loadError :: rest => load_and_prepare_samples p thr now c rest
  | c, .success m :: rest =>
    match m.normalized_text_for_id with
    | .error e => .error e
    | .ok t =>
      let rc := get_or_init_record p thr now c t true
      match load_and_prepare_samples p thr now rc.2 rest with
      | .error e => .error e
      | .ok (ss, c2) =>
        .ok ({ file_content_model := m, cache_record := rc.1 } :: ss, c2)

/-- `BatchFileTagger._assemble_results`. -/
def _assemble_results (samples : List PreparedFileSample) :
    List FileTaggingResult :=
  samples.map (fun s =>
    { file_path := s.file_content_model.file_path
      tags := s.cache_record.tags })

/-- The indices of the master sample list whose sample satisfies `pr`
(list-comprehension filters over the shared sample objects). -/
def indicesWhere (pr : PreparedFileSample → Bool)
    (m : List PreparedFileSample) : List Nat :=
  (List.range m.length).filter (fun i =>
    match m.get? i with
    | some s => pr s
    | none => false)

/-- Lines 54–65 of `batch_tag_files`: for each image sample, a truthy
cached `file_description` (non-`None` and non-empty) is copied into
`content` and `normalized_text_for_tagging`; the remaining image samples
are collected as `image_samples_no_desc`. -/
def applyCachedDescriptions :
    List Nat → List PreparedFileSample →
    List PreparedFileSample × List Nat
  | [], m => (m, [])
  | i :: is, m =>
    match m.get? i with
    | none => applyCachedDescriptions is m
    | some s =>
      match s.cache_record.file_description with
      | some d =>
        if d = "" then
          let r := applyCachedDescriptions is m
          (r.1, i :: r.2)
        else
          let fcm := { s.file_content_model with
            content := d, normalized_text_for_tagging := some d }
          let m1 := m.set i { s with file_content_model := fcm }
          applyCachedDescriptions is m1
      | none =>
        let r := applyCachedDescriptions is m
        (r.1, i :: r.2)

/-- The `for s, resp in zip(image_samples, image_responses)` loop of
`_process_images_batch`: falsy responses are skipped; otherwise the
response text is written into the sample's model and cache record, the
cache is updated, and the `updated` counter (last component) grows. -/
def imagesLoop (now : Nat) :
    List Nat → List (Option String) → Cache → List PreparedFileSample →
    Cache × List PreparedFileSample × Nat
  | [], _, c, m => (c, m, 0)
  | _ :: _, [], c, m => (c, m, 0)
  | _ :: is, none :: rs, c, m => imagesLoop now is rs c m
  | i :: is, some d :: rs, c, m =>
    match m.get? i with
    | none => imagesLoop now is rs c m
    | some s =>
      let fcm := { s.file_content_model with
        content := d, normalized_text_for_tagging := some d }
      let r1 := { s.cache_record with file_description := some d }
      let rc := update_file_description c r1 d now
      let m1 := m.set i { s with file_content_model := fcm
                                 cache_record := rc.1 }
      let res := imagesLoop now is rs rc.2 m1
      (res.1, res.2.1, res.2.2 + 1)

/-- `BatchFileTagger._process_images_batch`.  The last component of the
result counts the `flush()` calls the function performs: one when at least
one record was updated, none otherwise.  When the sample list is empty the
function returns before consulting the image oracle. -/
def _process_images_batch (c : Cache) (idxs : List Nat)
    (m : List PreparedFileSample)
    (responses : Except PyErr (List (Option String))) (now : Nat) :
    Except PyErr (Cache × List PreparedFileSample × Nat) :=
  if idxs.isEmpty then .ok (c, m, 0)
  else
    match responses with
    | .error e => .error e
    | .ok rs =>
      let res := imagesLoop now idxs rs c m
      .ok (res.1, res.2.1, if res.2.2 > 0 then 1 else 0)

/-- The `for sample, resp in zip(uncached_samples, tag_responses)` loop of
`_process_tags_batch`: falsy responses are skipped; otherwise the tags are
written into the sample's record, the cache is updated via `update_tags`,
and the `updated` counter (last component) grows. -/
def tagsLoop (now : Nat) :
    List Nat → List (Option (List String)) → Cache →
    List PreparedFileSample → Cache × List PreparedFileSample × Nat
  | [], _, c, m => (c, m, 0)
  | _ :: _, [], c, m => (c, m, 0)
  | _ :: is, none :: rs, c, m => tagsLoop now is rs c m
  | i :: is, some tg :: rs, c, m =>
    match m.get? i with
    | none => tagsLoop now is rs c m
    | some s =>
      let r1 := { s.cache_record with tags := tg }
      let rc := update_tags c r1 tg now
      let m1 := m.set i { s with cache_record := rc.1 }
      let res := tagsLoop now is rs rc.2 m1
      (res.1, res.2.1, res.2.2 + 1)

/-- `BatchFileTagger._process_tags_batch`.  The last component of the
result counts the `flush()` calls: one when at least one record was
updated, none otherwise.  When the sample list is empty the function
returns before consulting the tagging oracle; an exception of the batched
oracle call (`Except.error`) propagates. -/
def _process_tags_batch (c : Cache) (idxs : List Nat)
    (m : List PreparedFileSample)
    (responses : Except PyErr (List (Option (List String)))) (now : Nat) :
    Except PyErr (Cache × List PreparedFileSample × Nat) :=
  if idxs.isEmpty then .ok (c, m, 0)
  else
    match responses with
    | .error e => .error e
    | .ok rs =>
      let res := tagsLoop now idxs rs c m
      .ok (res.1, res.2.1, if res.2.2 > 0 then 1 else 0)

/-- Lines 46–74 of `BatchFileTagger.batch_tag_files`, given the prepared
samples: select the uncached samples (`not s.cache_record.tags`), handle
image descriptions, run the two batched phases and assemble the results.
The last component of the result counts the `flush()` calls performed
during the invocation. -/
def tag_pipeline (c : Cache) (m : List PreparedFileSample)
    (imageResp : Except PyErr (List (Option String)))
    (tagResp : Except PyErr (List (Option (List String)))) (now : Nat) :
    Except PyErr (List FileTaggingResult × Cache × Nat) :=
  let uncachedIdx := indicesWhere (fun s => s.cache_record.tags.isEmpty) m
  if uncachedIdx.isEmpty then .ok (_assemble_results m, c, 0)
  else
    let imageIdx := uncachedIdx.filter (fun i =>
      match m.get? i with
      | some s => s.file_content_model.file_type = "image"
      | none => false)
    let md := applyCachedDescriptions imageIdx m
    match _process_images_batch c md.2 md.1 imageResp now with
    | .error e => .error e
    | .ok (c1, m2, f1) =>
      match _process_tags_batch c1 uncachedIdx m2 tagResp now with
      | .error e => .error e
      | .ok (c2, m3, f2) => .ok (_assemble_results m3, c2, f1 + f2)

/-- `BatchFileTagger.batch_tag_files`: load and prepare the samples, then
run the tagging pipeline on them. -/
def batch_tag_files (p : HashParams) (thr now : Nat) (c : Cache)
    (outcomes : List LoadOutcome)
    (imageResp : Except PyErr (List (Option String)))
    (tagResp : Except PyErr (List (Option (List String)))) :
    Except PyErr (List FileTaggingResult × Cache × Nat) :=
  match load_and_prepare_samples p thr now c outcomes with
  | .error e => .error e
  | .ok (samples, c1) => tag_pipeline c1 samples imageResp tagResp now

/-- Flush-call count of a pipeline result (`0` when the pipeline raised). -/
def flushCountOf (r : Except PyErr (List FileTaggingResult × Cache × Nat)) :
    Nat :=
  match r with
  | .ok (_, _, f) => f
  | .error _ => 0

theorem squeezeWsAux_of_no_space {l : Str} (h : ∀ c ∈ l, isPySpace c = false) :
    ∀ b, squeezeWsAux b l = l := by
  induction l with
  | nil => intro b; rfl
  | cons c rest ih =>
    intro b
    have hc : isPySpace c = false := h c (List.mem_cons_self c rest)
    have hrest : ∀ c ∈ rest, isPySpace c = false :=
      fun x hx => h x (List.mem_cons_of_mem c hx)
    simp [squeezeWsAux, hc, ih hrest]

theorem dropWhile_of_no_space {l : Str} (h : ∀ c ∈ l, isPySpace c = false) :
    l.dropWhile isPySpace = l := by
  cases l with
  | nil => rfl
  | cons c rest =>
    have hc : isPySpace c = false := h c (List.mem_cons_self c rest)
    simp [List.dropWhile, hc]

theorem stripChars_of_no_space {l : Str} (h : ∀ c ∈ l, isPySpace c = false) :
    stripChars l = l := by
  unfold stripChars
  rw [dropWhile_of_no_space h]
  rw [dropWhile_of_no_space (fun c hc => h c (List.mem_reverse.mp hc))]
  exact List.reverse_reverse l

theorem normalize_of_no_space {l : Str} (h : ∀ c ∈ l, isPySpace c = false) :
    normalize l true true = l := by
  show stripChars (squeezeWs l) = l
  rw [squeezeWs, squeezeWsAux_of_no_space h false, stripChars_of_no_space h]

/-- Whitespace-free input longer than the budget: the splitter path returns
the whole normalized text as the single chunk, so `front` and `back` are
both the entire text and the identity text has twice the input length. -/
theorem identityText_length_of_no_space {l : Str}
    (h : ∀ c ∈ l, isPySpace c = false) (hlen : 1500 < l.length) :
    (identityText l).length = 2 * l.length := by
  unfold identityText split_for_tag_cache
  rw [normalize_of_no_space h]
  have hnonempty : l.isEmpty = false := by
    cases l with
    | nil => simp at hlen
    | cons c rest => rfl
  have hle : ¬ l.length ≤ 1500 := by omega
  simp only [if_neg hle, characterTextSplitter_split, stripChars_of_no_space h,
    hnonempty, Bool.false_eq_true, if_false, List.length_cons, List.length_nil]
  simp [List.length_append]
  omega

/-- C7: the claim says the identity text assembled by
`split_for_tag_cache` / `set_normalized_fields` is length-bounded by a
budget of about 1500 characters regardless of input size.  The code
violates this and its own docstring ("总字符数约 max_total_chars"): the
normalize step squeezes all whitespace, so langchain's default `"\n\n"`
separator never occurs and the whole text is returned as a single chunk,
making `front` and `back` each the entire text.  Evaluated at a
whitespace-free input of 2000 characters, the identity text has length
4000 (in general `2 * len(input)`, unbounded). -/
theorem C7_bug_eval :
    (identityText (List.replicate 2000 'a')).length = 4000 ∧
    1500 < (identityText (List.replicate 2000 'a')).length := by
  have h : ∀ c ∈ List.replicate 2000 'a', isPySpace c = false := by
    intro c hc
    rw [List.eq_of_mem_replicate hc]
    decide
  have hlen : 1500 < (List.replicate 2000 'a').length := by
    rw [List.length_replicate]; omega
  have := identityText_length_of_no_space h hlen
  simp only [List.length_replicate] at this
  omega

theorem dictGet_dictSet_self (c : Cache) (k : String) (v : TagRecord) :
    dictGet (dictSet c k v) k = some v := by
  induction c with
  | nil => simp [dictGet, dictSet]
  | cons kv rest ih =>
    obtain ⟨k1, w⟩ := kv
    by_cases h : k1 = k
    · simp [dictGet, dictSet, h]
    · simp [dictGet, dictSet, h, ih]

theorem dictGet_dictSet_ne (c : Cache) (k k2 : String) (v : TagRecord)
    (h : k ≠ k2) : dictGet (dictSet c k v) k2 = dictGet c k2 := by
  induction c with
  | nil => simp [dictGet, dictSet, h]
  | cons kv rest ih =>
    obtain ⟨k1, w⟩ := kv
    by_cases h1 : k1 = k
    · subst h1
      simp [dictGet, dictSet, h]
    · simp [dictGet, dictSet, h1]
      by_cases h2 : k1 = k2 <;> simp [h2, ih]

theorem dictGet_ne_none_of_mem {c : Cache} {k : String} {v : TagRecord}
    (hm : (k, v) ∈ c) : dictGet c k ≠ none := by
  induction c with
  | nil => simp at hm
  | cons kv rest ih =>
    obtain ⟨k1, w⟩ := kv
    rcases List.mem_cons.mp hm with heq | hmem
    · obtain ⟨h1, _⟩ := Prod.mk.injEq .. ▸ heq
      injection heq with hk hv
      simp [dictGet, hk]
    · by_cases h1 : k1 = k
      · simp [dictGet, h1]
      · simpa [dictGet, h1] using ih hmem

theorem dictGet_of_mem {c : Cache} {k : String} {v : TagRecord}
    (hn : (c.map Prod.fst).Nodup) (hm : (k, v) ∈ c) :
    dictGet c k = some v := by
  induction c with
  | nil => simp at hm
  | cons kv rest ih =>
    obtain ⟨k1, w⟩ := kv
    simp only [List.map_cons, List.nodup_cons] at hn
    rcases List.mem_cons.mp hm with heq | hmem
    · injection heq with hk hv
      simp [dictGet, hk, hv]
    · by_cases h1 : k1 = k
      · exfalso
        exact hn.1 (h1 ▸ (List.mem_map.mpr ⟨(k, v), hmem, rfl⟩))
      · simpa [dictGet, h1] using ih hn.2 hmem

theorem mem_of_mem_dictValues {c : Cache} {r : TagRecord}
    (h : r ∈ dictValues c) : ∃ k, (k, r) ∈ c := by
  simp only [dictValues, List.mem_map] at h
  obtain ⟨kv, hkv, h2⟩ := h
  exact ⟨kv.1, by rwa [show (kv.1, r) = kv from Prod.ext rfl h2.symm]⟩

/-- C10: `get_or_init_record` is idempotent — the content id is the
deterministic `textHash` of the normalized text, a second call with the
same text (whatever its `use_approx` flag or timestamp) returns exactly the
record the first call left stored under that id and leaves the cache map
unchanged, so no duplicate cache entry is ever created for identical
content and already-resolved entries are untouched. -/
theorem C10_get_or_init_idempotent :
    ∀ (p : HashParams) (thr now now2 : Nat) (c : Cache) (t : String)
      (a a2 : Bool),
    get_or_init_record p thr now2 (get_or_init_record p thr now c t a).2 t a2
      = get_or_init_record p thr now c t a := by
  intro p thr now now2 c t a a2
  cases hg : dictGet c (p.textHash t) with
  | some hit => simp [get_or_init_record, get_by_id, hg]
  | none => simp [get_or_init_record, get_by_id, hg, dictGet_dictSet_self]

theorem applyOps_append_chars (s : Str) :
    ∀ acc : Str, applyOps acc (s.map FsOp.appendChar) = acc ++ s := by
  induction s with
  | nil => intro acc; simp [applyOps]
  | cons ch rest ih =>
    intro acc
    simp only [List.map_cons, applyOps, List.foldl_cons, applyOp]
    simpa [applyOps] using ih (acc ++ [ch])

/-- C4 counterexample: `save` does not use a temporary file plus rename —
it truncates the target in place.  The execution interrupted right after
the truncate step (the first operation of `saveOps`) leaves the cache
file empty: neither the old content nor the new one. -/
theorem C4_counterexample :
    applyOps ['o', 'l', 'd'] ((saveOps ['n', 'e', 'w']).take 1) = [] ∧
    applyOps ['o', 'l', 'd'] ((saveOps ['n', 'e', 'w']).take 1) ≠
      ['o', 'l', 'd'] ∧
    applyOps ['o', 'l', 'd'] ((saveOps ['n', 'e', 'w']).take 1) ≠
      ['n', 'e', 'w'] := by
  refine ⟨rfl, by decide, by decide⟩

/-- C4 amended: `flush` persists the cache by truncating the target file
and writing the serialized map directly into it — no temporary location and
no rename.  A completed execution leaves exactly the new serialized
content, but the execution interrupted mid-write (here: after the
truncation) leaves the persisted cache file empty. -/
theorem C4_amended :
    ∀ (old serialized : Str),
    applyOps old (saveOps serialized) = serialized ∧
    applyOps old ((saveOps serialized).take 1) = [] := by
  intro old serialized
  constructor
  · show applyOps old (FsOp.truncate :: serialized.map FsOp.appendChar)
      = serialized
    simp only [applyOps, List.foldl_cons, applyOp]
    simpa [applyOps] using applyOps_append_chars serialized []
  · rfl

/-- C5 counterexample: when the on-disk write fails, the error is *not*
raised to the caller of `flush`: `save` catches and logs it, and `flush`
returns normally (`Except.ok`) with the in-memory cache unchanged and the
file in whatever state the failed write left (`['p']` here). -/
theorem C5_counterexample :
    flush [("id", { content_id := "id" })] ['j'] true ['p'] =
      .ok (['p'], [("id", { content_id := "id" })]) ∧
    (flush [("id", { content_id := "id" })] ['j'] true ['p']).isOk = true :=
  ⟨rfl, rfl⟩

/-- C5 amended: when the on-disk write performed by `flush` fails, the
exception is caught and logged inside `save`; `flush` returns normally and
no error surfaces to its caller, while the in-memory cache map is left
unchanged (the file holds whatever the failed write left behind).  On a
successful write the file holds the serialized map and the cache is again
unchanged. -/
theorem C5_amended :
    ∀ (c : Cache) (serialized leftover : Str),
    flush c serialized true leftover = .ok (leftover, c) ∧
    flush c serialized false leftover = .ok (serialized, c) := by
  intro c serialized leftover
  exact ⟨rfl, rfl⟩

theorem load_and_prepare_eq (p : HashParams) (thr now : Nat) :
    ∀ (outcomes : List LoadOutcome) (c : Cache),
    load_and_prepare_samples p thr now c outcomes =
      if outcomes.all LoadOutcome.isFailure then .ok ([], c)
      else .error .attributeError := by
  intro outcomes
  induction outcomes with
  | nil => intro c; simp [load_and_prepare_samples]
  | cons o rest ih =>
    intro c
    cases o with
    | unsupported =>
      simp [load_and_prepare_samples, ih c, LoadOutcome.isFailure]
    | loadError =>
      simp [load_and_prepare_samples, ih c, LoadOutcome.isFailure]
    | success m =>
      simp [load_and_prepare_samples, FileContentModel.normalized_text_for_id,
        LoadOutcome.isFailure]

/-- C1 counterexample: for the one-element batch whose single item fails to
load, `batch_tag_files` returns an empty result list (length 0), not a
one-element list carrying the failed item with empty tags — the item is
dropped, so the result does not have the same length as the input. -/
theorem C1_counterexample :
    batch_tag_files ⟨fun s => s, fun _ => 0⟩ 8 0 []
      [LoadOutcome.loadError] (.ok []) (.ok []) = .ok ([], [], 0) ∧
    [LoadOutcome.loadError].length = 1 :=
  ⟨rfl, rfl⟩

/-- C1 amended: an item whose load fails is logged and *dropped* from the
results (it does not appear with empty tags), and its failure never aborts
the loading loop — so the result list holds only loaded items, not one
entry per input.  Moreover, because reading `normalized_text_for_id` raises
`AttributeError` for every successfully loaded item (see C2),
`batch_tag_files` returns normally exactly when every item failed to load,
and then its result list is empty with the cache untouched and no flush
performed. -/
theorem C1_amended :
    ∀ (p : HashParams) (thr now : Nat) (c : Cache)
      (outcomes : List LoadOutcome)
      (imageResp : Except PyErr (List (Option String)))
      (tagResp : Except PyErr (List (Option (List String)))),
    batch_tag_files p thr now c outcomes imageResp tagResp =
      if outcomes.all LoadOutcome.isFailure then .ok ([], c, 0)
      else .error .attributeError := by
  intro p thr now c outcomes imageResp tagResp
  unfold batch_tag_files
  rw [load_and_prepare_eq]
  by_cases h : outcomes.all LoadOutcome.isFailure = true
  · simp only [h, if_true]
    rfl
  · simp only [h, if_false, Bool.false_eq_true]

/-- C2: `_load_and_prepare_samples` reads
`file_content_model.normalized_text_for_id`, but `FileContentModel`
declares only `normalized_text` and pydantic discards the extra constructor
keyword, so the attribute access raises `AttributeError`; consequently for
every batch containing at least one successfully loaded item (anywhere in
the batch), `batch_tag_files` raises `AttributeError` instead of returning
a result list. -/
theorem C2_attribute_error :
    ∀ (p : HashParams) (thr now : Nat) (c : Cache)
      (pre post : List LoadOutcome) (m : FileContentModel)
      (imageResp : Except PyErr (List (Option String)))
      (tagResp : Except PyErr (List (Option (List String)))),
    batch_tag_files p thr now c (pre ++ LoadOutcome.success m :: post)
      imageResp tagResp = .error .attributeError := by
  intro p thr now c pre post m imageResp tagResp
  unfold batch_tag_files
  rw [load_and_prepare_eq]
  have h : (pre ++ LoadOutcome.success m :: post).all LoadOutcome.isFailure
      = false := by
    simp [List.all_append, LoadOutcome.isFailure]
  rw [h]
  rfl

/-- C3 counterexample: when the batched tagging-oracle call raises, the
exception is not caught — `_process_tags_batch` (and with it
`batch_tag_files`) propagates the oracle error to its caller instead of
treating the sub-call's items as null responses and returning normally. -/
theorem C3_counterexample :
    _process_tags_batch [] [0]
      [{ file_content_model := { file_path := "f" },
         cache_record := { content_id := "c" } }]
      (.error .oracleError) 0 = .error .oracleError :=
  rfl

/-- C3 amended: the code tolerates *null responses*, not exceptions: when
the batched oracle call returns a response list, every `None` entry is
skipped (its item stays untagged this round) and the call returns normally;
but when the batched oracle call raises and at least one uncached sample is
in flight, the exception propagates out of `_process_tags_batch` (and there
is no handler above it in `batch_tag_files`), it is not caught once per
sub-call. -/
theorem C3_amended :
    (∀ (c : Cache) (idxs : List Nat) (m : List PreparedFileSample)
       (rs : List (Option (List String))) (now : Nat),
      (_process_tags_batch c idxs m (.ok rs) now).isOk = true) ∧
    (∀ (c : Cache) (i : Nat) (is : List Nat) (m : List PreparedFileSample)
       (e : PyErr) (now : Nat),
      _process_tags_batch c (i :: is) m (.error e) now = .error e) ∧
    (∀ (now i : Nat) (is : List Nat) (rs : List (Option (List String)))
       (c : Cache) (m : List PreparedFileSample),
      tagsLoop now (i :: is) (none :: rs) c m = tagsLoop now is rs c m) := by
  refine ⟨?_, ?_, ?_⟩
  · intro c idxs m rs now
    unfold _process_tags_batch
    cases h : idxs.isEmpty <;> simp [h, Except.isOk, Except.toBool]
  · intro c i is m e now
    rfl
  · intro now i is rs c m
    rfl

theorem imagesLoop_replicate_none (now : Nat) :
    ∀ (idxs : List Nat) (n : Nat) (c : Cache)
      (m : List PreparedFileSample),
    imagesLoop now idxs (List.replicate n none) c m = (c, m, 0) := by
  intro idxs
  induction idxs with
  | nil => intro n c m; rfl
  | cons i is ih =>
    intro n c m
    cases n with
    | zero => rfl
    | succ k => simpa [List.replicate, imagesLoop] using ih k c m

theorem tagsLoop_replicate_none (now : Nat) :
    ∀ (idxs : List Nat) (n : Nat) (c : Cache)
      (m : List PreparedFileSample),
    tagsLoop now idxs (List.replicate n none) c m = (c, m, 0) := by
  intro idxs
  induction idxs with
  | nil => intro n c m; rfl
  | cons i is ih =>
    intro n c m
    cases n with
    | zero => rfl
    | succ k => simpa [List.replicate, tagsLoop] using ih k c m

theorem images_batch_replicate_none (c : Cache) (idxs : List Nat)
    (m : List PreparedFileSample) (n now : Nat) :
    _process_images_batch c idxs m (.ok (List.replicate n none)) now =
      .ok (c, m, 0) := by
  unfold _process_images_batch
  cases h : idxs.isEmpty with
  | true => simp [h]
  | false => simp [h, imagesLoop_replicate_none now idxs n c m]

theorem tags_batch_replicate_none (c : Cache) (idxs : List Nat)
    (m : List PreparedFileSample) (n now : Nat) :
    _process_tags_batch c idxs m (.ok (List.replicate n none)) now =
      .ok (c, m, 0) := by
  unfold _process_tags_batch
  cases h : idxs.isEmpty with
  | true => simp [h]
  | false => simp [h, tagsLoop_replicate_none now idxs n c m]

theorem images_flush_le (c : Cache) (idxs : List Nat)
    (m : List PreparedFileSample)
    (responses : Except PyErr (List (Option String))) (now : Nat)
    (c1 : Cache) (m1 : List PreparedFileSample) (f : Nat)
    (h : _process_images_batch c idxs m responses now = .ok (c1, m1, f)) :
    f ≤ 1 := by
  unfold _process_images_batch at h
  split at h
  · injection h with h2
    have := congrArg (fun x => x.2.2) h2
    simp at this
    omega
  · split at h
    · exact absurd h (by simp)
    · injection h with h2
      have := congrArg (fun x => x.2.2) h2
      simp at this
      split at this <;> omega

theorem tags_flush_le (c : Cache) (idxs : List Nat)
    (m : List PreparedFileSample)
    (responses : Except PyErr (List (Option (List String)))) (now : Nat)
    (c1 : Cache) (m1 : List PreparedFileSample) (f : Nat)
    (h : _process_tags_batch c idxs m responses now = .ok (c1, m1, f)) :
    f ≤ 1 := by
  unfold _process_tags_batch at h
  split at h
  · injection h with h2
    have := congrArg (fun x => x.2.2) h2
    simp at this
    omega
  · split at h
    · exact absurd h (by simp)
    · injection h with h2
      have := congrArg (fun x => x.2.2) h2
      simp at this
      split at this <;> omega

/-- C6 counterexample: one invocation of the tagging pipeline (the body of
`batch_tag_files` after loading) in which the image-description phase
updates a record and the tagging phase updates records calls `flush()`
twice — not at most once. -/
theorem C6_counterexample :
    flushCountOf (tag_pipeline []
      [{ file_content_model := { file_path := "p0", file_type := "image" },
         cache_record := { content_id := "c0" } },
       { file_content_model := { file_path := "p1" },
         cache_record := { content_id := "c1" } }]
      (.ok [some ("d")]) (.ok [some ["t1"], some ["t2"]]) 7) = 2 := by
  decide

/-- C6 amended: within a single invocation of the tagging pipeline,
`flush()` is called at most *twice* — at most once after the
image-description phase and at most once after the tagging phase, each only
when that phase changed at least one record (a phase whose oracle returns
only null responses never flushes), and never once per item. -/
theorem C6_amended :
    (∀ (c : Cache) (m : List PreparedFileSample)
       (imageResp : Except PyErr (List (Option String)))
       (tagResp : Except PyErr (List (Option (List String)))) (now : Nat),
      flushCountOf (tag_pipeline c m imageResp tagResp now) ≤ 2) ∧
    (∀ (c : Cache) (m : List PreparedFileSample) (now n1 n2 : Nat),
      flushCountOf (tag_pipeline c m (.ok (List.replicate n1 none))
        (.ok (List.replicate n2 none)) now) = 0) := by
  constructor
  · intro c m imageResp tagResp now
    unfold tag_pipeline
    dsimp only
    split
    · simp [flushCountOf]
    · split
      next e heq => simp [flushCountOf]
      next c1 m2 f1 heq =>
        split
        next e heq2 => simp [flushCountOf]
        next c2 m3 f2 heq2 =>
          have hf1 := images_flush_le _ _ _ _ _ _ _ _ heq
          have hf2 := tags_flush_le _ _ _ _ _ _ _ _ heq2
          simp only [flushCountOf]
          omega
  · intro c m now n1 n2
    unfold tag_pipeline
    dsimp only
    split
    · simp [flushCountOf]
    · simp [images_batch_replicate_none, tags_batch_replicate_none,
        flushCountOf]

theorem findLoop_mem (sh : Nat) :
    ∀ (l : List TagRecord) (best : Option TagRecord) (bd : Nat)
      (b2 : TagRecord),
    (findLoop sh l best bd).1 = some b2 → b2 ∈ l ∨ best = some b2 := by
  intro l
  induction l with
  | nil =>
    intro best bd b2 h
    right
    exact h
  | cons rec rest ih =>
    intro best bd b2 h
    cases hsim : rec.simhash64 with
    | none =>
      simp only [findLoop, hsim] at h
      rcases ih _ _ _ h with hm | hb
      · exact Or.inl (List.mem_cons_of_mem _ hm)
      · exact Or.inr hb
    | some hh =>
      simp only [findLoop, hsim] at h
      by_cases h1 : popCount (sh ^^^ hh) < bd
      · by_cases h2 : popCount (sh ^^^ hh) = 0
        · simp only [if_pos h1, if_pos h2] at h
          injection h with h3
          exact Or.inl (h3 ▸ List.mem_cons_self rec rest)
        · simp only [if_pos h1, if_neg h2] at h
          rcases ih _ _ _ h with hm | hb
          · exact Or.inl (List.mem_cons_of_mem _ hm)
          · injection hb with h3
            exact Or.inl (h3 ▸ List.mem_cons_self rec rest)
      · simp only [if_neg h1] at h
        rcases ih _ _ _ h with hm | hb
        · exact Or.inl (List.mem_cons_of_mem _ hm)
        · exact Or.inr hb

theorem findLoop_dist (sh : Nat) :
    ∀ (l : List TagRecord) (best : Option TagRecord) (bd : Nat),
    (∀ b, best = some b →
      ∃ h, b.simhash64 = some h ∧ popCount (sh ^^^ h) = bd) →
    ∀ b2, (findLoop sh l best bd).1 = some b2 →
    ∃ h, b2.simhash64 = some h ∧
      popCount (sh ^^^ h) = (findLoop sh l best bd).2 := by
  intro l
  induction l with
  | nil =>
    intro best bd hinv b2 h
    exact hinv b2 h
  | cons rec rest ih =>
    intro best bd hinv b2 h
    cases hsim : rec.simhash64 with
    | none =>
      simp only [findLoop, hsim] at h ⊢
      exact ih _ _ hinv b2 h
    | some hh =>
      simp only [findLoop, hsim] at h ⊢
      by_cases h1 : popCount (sh ^^^ hh) < bd
      · by_cases h2 : popCount (sh ^^^ hh) = 0
        · simp only [if_pos h1, if_pos h2] at h ⊢
          injection h with h3
          exact ⟨hh, h3 ▸ hsim, rfl⟩
        · simp only [if_pos h1, if_neg h2] at h ⊢
          refine ih _ _ ?_ b2 h
          intro b hb
          injection hb with h3
          exact ⟨hh, h3 ▸ hsim, rfl⟩
      · simp only [if_neg h1] at h ⊢
        exact ih _ _ hinv b2 h

theorem findLoop_min (sh : Nat) :
    ∀ (l : List TagRecord) (best : Option TagRecord) (bd : Nat),
    (findLoop sh l best bd).2 ≤ bd ∧
    ∀ r ∈ l, ∀ h, r.simhash64 = some h →
      (findLoop sh l best bd).2 ≤ popCount (sh ^^^ h) := by
  intro l
  induction l with
  | nil =>
    intro best bd
    exact ⟨le_refl bd, by simp⟩
  | cons rec rest ih =>
    intro best bd
    cases hsim : rec.simhash64 with
    | none =>
      simp only [findLoop, hsim]
      refine ⟨(ih best bd).1, ?_⟩
      intro r hr h hh
      rcases List.mem_cons.mp hr with heq | hmem
      · rw [heq] at hh
        rw [hsim] at hh
        cases hh
      · exact (ih best bd).2 r hmem h hh
    | some hh =>
      simp only [findLoop, hsim]
      by_cases h1 : popCount (sh ^^^ hh) < bd
      · by_cases h2 : popCount (sh ^^^ hh) = 0
        · simp only [if_pos h1, if_pos h2]
          refine ⟨le_of_lt h1, ?_⟩
          intro r hr h hhr
          omega
        · simp only [if_pos h1, if_neg h2]
          refine ⟨le_trans (ih (some rec) (popCount (sh ^^^ hh))).1
            (le_of_lt h1), ?_⟩
          intro r hr h hhr
          rcases List.mem_cons.mp hr with heq | hmem
          · rw [heq] at hhr
            rw [hsim] at hhr
            injection hhr with h3
            rw [← h3]
            exact (ih (some rec) (popCount (sh ^^^ hh))).1
          · exact (ih (some rec) (popCount (sh ^^^ hh))).2 r hmem h hhr
      · simp only [if_neg h1]
        refine ⟨(ih best bd).1, ?_⟩
        intro r hr h hhr
        rcases List.mem_cons.mp hr with heq | hmem
        · rw [heq] at hhr
          rw [hsim] at hhr
          injection hhr with h3
          rw [← h3]
          exact le_trans (ih best bd).1 (Nat.le_of_not_lt h1)
        · exact (ih best bd).2 r hmem h hhr

theorem findLoop_none (sh : Nat) :
    ∀ (l : List TagRecord) (best : Option TagRecord) (bd : Nat),
    (findLoop sh l best bd).1 = none →
    best = none ∧ (findLoop sh l best bd).2 = bd ∧
    ∀ r ∈ l, ∀ h, r.simhash64 = some h → bd ≤ popCount (sh ^^^ h) := by
  intro l
  induction l with
  | nil =>
    intro best bd h
    exact ⟨h, rfl, by simp⟩
  | cons rec rest ih =>
    intro best bd h
    cases hsim : rec.simhash64 with
    | none =>
      simp only [findLoop, hsim] at h ⊢
      obtain ⟨hb, hbd, hrest⟩ := ih _ _ h
      refine ⟨hb, hbd, ?_⟩
      intro r hr hx hhx
      rcases List.mem_cons.mp hr with heq | hmem
      · rw [heq] at hhx
        rw [hsim] at hhx
        cases hhx
      · exact hrest r hmem hx hhx
    | some hh =>
      simp only [findLoop, hsim] at h ⊢
      by_cases h1 : popCount (sh ^^^ hh) < bd
      · by_cases h2 : popCount (sh ^^^ hh) = 0
        · simp only [if_pos h1, if_pos h2] at h
          cases h
        · simp only [if_pos h1, if_neg h2] at h ⊢
          obtain ⟨hb, _, _⟩ := ih _ _ h
          cases hb
      · simp only [if_neg h1] at h ⊢
        obtain ⟨hb, hbd, hrest⟩ := ih _ _ h
        refine ⟨hb, hbd, ?_⟩
        intro r hr hx hhx
        rcases List.mem_cons.mp hr with heq | hmem
        · rw [heq] at hhx
          rw [hsim] at hhx
          injection hhx with h3
          rw [← h3]
          exact Nat.le_of_not_lt h1
        · exact hrest r hmem hx hhx

theorem find_some_spec {c : Cache} {sh mh : Nat} {b : TagRecord}
    (hf : _find_by_simhash c sh mh = some b) :
    b ∈ dictValues c ∧
    ∃ h, b.simhash64 = some h ∧ popCount (sh ^^^ h) ≤ mh ∧
      ∀ r ∈ dictValues c, ∀ h2, r.simhash64 = some h2 →
        popCount (sh ^^^ h) ≤ popCount (sh ^^^ h2) := by
  unfold _find_by_simhash at hf
  rcases hloop : findLoop sh (dictValues c) none 65 with ⟨ob, bd⟩
  rw [hloop] at hf
  cases ob with
  | none => cases hf
  | some best =>
    by_cases hle : bd ≤ mh
    · simp only [if_pos hle] at hf
      injection hf with hf2
      subst hf2
      have hm1 : (findLoop sh (dictValues c) none 65).1 = some best := by
        rw [hloop]
      have hmem : best ∈ dictValues c := by
        rcases findLoop_mem sh (dictValues c) none 65 best hm1 with hm | hm
        · exact hm
        · cases hm
      obtain ⟨h, hbh, hbd⟩ := findLoop_dist sh (dictValues c) none 65
        (by intro x hx; cases hx) best hm1
      have hminl := findLoop_min sh (dictValues c) none 65
      rw [hloop] at hbd hminl
      refine ⟨hmem, h, hbh, ?_, ?_⟩
      · rw [hbd]
        exact hle
      · intro r hr h2 hh2
        rw [hbd]
        exact hminl.2 r hr h2 hh2
    · simp only [if_neg hle] at hf
      cases hf

theorem find_none_spec {c : Cache} {sh mh : Nat}
    (hrange : ∀ r ∈ dictValues c, ∀ h, r.simhash64 = some h →
      popCount (sh ^^^ h) ≤ 64)
    (hf : _find_by_simhash c sh mh = none) :
    ∀ r ∈ dictValues c, ∀ h, r.simhash64 = some h →
      mh < popCount (sh ^^^ h) := by
  unfold _find_by_simhash at hf
  rcases hloop : findLoop sh (dictValues c) none 65 with ⟨ob, bd⟩
  rw [hloop] at hf
  cases ob with
  | none =>
    have hn := findLoop_none sh (dictValues c) none 65
    rw [hloop] at hn
    obtain ⟨_, hbd, hrest⟩ := hn rfl
    intro r hr h hh
    have h65 := hrest r hr h hh
    have h64 := hrange r hr h hh
    omega
  | some best =>
    by_cases hle : bd ≤ mh
    · simp only [if_pos hle] at hf
      cases hf
    · have hminl := findLoop_min sh (dictValues c) none 65
      rw [hloop] at hminl
      intro r hr h hh
      have := hminl.2 r hr h hh
      omega

/-- C9: on an exact-lookup miss, `get_or_init_record` with approximation
enabled scans exactly the records with a known simhash fingerprint, picks a
candidate at minimum Hamming distance to the query simhash, copies its
`tags` and `file_description` into the new record iff that minimum distance
is at most the configured threshold, and otherwise — or when approximation
is disabled — creates a record with empty tags; in all cases the new record
is stored under the blake2b content id with the query fingerprint.  The
distance-range hypothesis expresses that stored fingerprints are 64-bit
simhash values, so every Hamming distance is at most 64. -/
theorem C9_theorem :
    ∀ (p : HashParams) (thr now : Nat) (c : Cache) (t : String),
    dictGet c (p.textHash t) = none →
    (∀ r ∈ dictValues c, ∀ h, r.simhash64 = some h →
      popCount (_simhash64 p.simhashImpl t 3 ^^^ h) ≤ 64) →
    (get_or_init_record p thr now c t false =
      ({ content_id := p.textHash t,
         simhash64 := some (_simhash64 p.simhashImpl t 3),
         tags := [], file_description := none, ts := now },
       dictSet c (p.textHash t)
         { content_id := p.textHash t,
           simhash64 := some (_simhash64 p.simhashImpl t 3),
           tags := [], file_description := none, ts := now })) ∧
    (∀ cand,
      _find_by_simhash c (_simhash64 p.simhashImpl t 3) thr = some cand →
      cand ∈ dictValues c ∧
      (∃ h, cand.simhash64 = some h ∧
        popCount (_simhash64 p.simhashImpl t 3 ^^^ h) ≤ thr ∧
        ∀ r ∈ dictValues c, ∀ h2, r.simhash64 = some h2 →
          popCount (_simhash64 p.simhashImpl t 3 ^^^ h) ≤
            popCount (_simhash64 p.simhashImpl t 3 ^^^ h2)) ∧
      get_or_init_record p thr now c t true =
        ({ content_id := p.textHash t,
           simhash64 := some (_simhash64 p.simhashImpl t 3),
           tags := cand.tags, file_description := cand.file_description,
           ts := now },
         dictSet c (p.textHash t)
           { content_id := p.textHash t,
             simhash64 := some (_simhash64 p.simhashImpl t 3),
             tags := cand.tags, file_description := cand.file_description,
             ts := now })) ∧
    (_find_by_simhash c (_simhash64 p.simhashImpl t 3) thr = none →
      (∀ r ∈ dictValues c, ∀ h, r.simhash64 = some h →
        thr < popCount (_simhash64 p.simhashImpl t 3 ^^^ h)) ∧
      get_or_init_record p thr now c t true =
        ({ content_id := p.textHash t,
           simhash64 := some (_simhash64 p.simhashImpl t 3),
           tags := [], file_description := none, ts := now },
         dictSet c (p.textHash t)
           { content_id := p.textHash t,
             simhash64 := some (_simhash64 p.simhashImpl t 3),
             tags := [], file_description := none, ts := now })) := by
  intro p thr now c t hmiss hrange
  refine ⟨?_, ?_, ?_⟩
  · simp [get_or_init_record, get_by_id, hmiss]
  · intro cand hfind
    obtain ⟨hmem, h, hbh, hle, hmin⟩ := find_some_spec hfind
    exact ⟨hmem, ⟨h, hbh, hle, hmin⟩,
      by simp [get_or_init_record, get_by_id, hmiss, hfind]⟩
  · intro hfind
    exact ⟨find_none_spec hrange hfind,
      by simp [get_or_init_record, get_by_id, hmiss, hfind]⟩

/-- C9 witness: the approximation-disabled conjunct of `C9_theorem`
evaluated on a concrete one-record cache with identity text hash and
constant-zero simhash. -/
theorem C9_witness :
    get_or_init_record ⟨fun s => s, fun _ => 0⟩ 8 5
      [("a", { content_id := "a", simhash64 := some 0, tags := ["x"] })]
      "b" false =
      ({ content_id := "b", simhash64 := some 0, tags := [],
         file_description := none, ts := 5 },
       [("a", { content_id := "a", simhash64 := some 0, tags := ["x"] }),
        ("b", { content_id := "b", simhash64 := some 0, tags := [],
                file_description := none, ts := 5 })]) :=
  (C9_theorem ⟨fun s => s, fun _ => 0⟩ 8 5
    [("a", { content_id := "a", simhash64 := some 0, tags := ["x"] })] "b"
    (by decide)
    (by
      intro r hr h hh
      simp only [dictValues, List.map_cons, List.map_nil,
        List.mem_singleton] at hr
      subst hr
      simp only [Option.some.injEq] at hh
      subst hh
      decide)).1

/-- C8: when `get_or_init_record` creates a new record `r2` by approximate
reuse from candidate `r1`, the tags and description are copied into an
independent record stored under a different content id — so a later
`update_tags` on `r2` leaves the cache entry of `r1` (and hence `r1.tags`)
unchanged, and a later `update_tags` on `r1` leaves the cache entry of `r2`
unchanged. -/
theorem C8_theorem :
    ∀ (p : HashParams) (thr now : Nat) (c : Cache) (t : String)
      (r1 : TagRecord),
    Cache.WF c →
    dictGet c (p.textHash t) = none →
    _find_by_simhash c (_simhash64 p.simhashImpl t 3) thr = some r1 →
    ∀ r2 c2, get_or_init_record p thr now c t true = (r2, c2) →
    r2.tags = r1.tags ∧ r2.file_description = r1.file_description ∧
    r2.content_id ≠ r1.content_id ∧
    (∀ tags now2,
      dictGet (update_tags c2 r2 tags now2).2 r1.content_id = some r1) ∧
    (∀ tags now2,
      dictGet (update_tags c2 r1 tags now2).2 r2.content_id = some r2) := by
  intro p thr now c t r1 hwf hmiss hfind r2 c2 hgoi
  have hr1mem : r1 ∈ dictValues c := (find_some_spec hfind).1
  obtain ⟨k, hkmem⟩ := mem_of_mem_dictValues hr1mem
  have hk : r1.content_id = k := hwf.2 (k, r1) hkmem
  have hgetr1 : dictGet c r1.content_id = some r1 := by
    rw [hk]
    exact dictGet_of_mem hwf.1 hkmem
  have hne : p.textHash t ≠ r1.content_id := by
    intro heq
    rw [← heq] at hgetr1
    rw [hmiss] at hgetr1
    cases hgetr1
  have hgoi2 : get_or_init_record p thr now c t true =
      ({ content_id := p.textHash t,
         simhash64 := some (_simhash64 p.simhashImpl t 3),
         tags := r1.tags, file_description := r1.file_description,
         ts := now },
       dictSet c (p.textHash t)
         { content_id := p.textHash t,
           simhash64 := some (_simhash64 p.simhashImpl t 3),
           tags := r1.tags, file_description := r1.file_description,
           ts := now }) := by
    simp [get_or_init_record, get_by_id, hmiss, hfind]
  rw [hgoi] at hgoi2
  injection hgoi2 with hr2 hc2
  subst hr2
  subst hc2
  refine ⟨rfl, rfl, hne, ?_, ?_⟩
  · intro tags now2
    unfold update_tags
    simp only
    rw [dictGet_dictSet_ne _ _ _ _ hne]
    rw [dictGet_dictSet_ne _ _ _ _ hne]
    exact hgetr1
  · intro tags now2
    unfold update_tags
    simp only
    rw [dictGet_dictSet_ne _ _ _ _ (fun heq => hne heq.symm)]
    exact dictGet_dictSet_self _ _ _

/-- C8 witness: `C8_theorem` applied to a concrete one-record cache —
after approximate reuse creates the record for `"b"` from the record for
`"a"`, updating the new record's tags leaves the record stored under `"a"`
(with its tags `["x"]`) unchanged. -/
theorem C8_witness :
    dictGet (update_tags
      [("a", { content_id := "a", simhash64 := some 0, tags := ["x"] }),
       ("b", { content_id := "b", simhash64 := some 0, tags := ["x"],
               file_description := none, ts := 5 })]
      { content_id := "b", simhash64 := some 0, tags := ["x"],
        file_description := none, ts := 5 } ["y"] 9).2 ("a") =
      some { content_id := "a", simhash64 := some 0, tags := ["x"] } :=
  (C8_theorem ⟨fun s => s, fun _ => 0⟩ 8 5
    [("a", { content_id := "a", simhash64 := some 0, tags := ["x"] })] "b"
    { content_id := "a", simhash64 := some 0, tags := ["x"] }
    (by constructor
        · decide
        · decide)
    (by decide) (by decide)
    { content_id := "b", simhash64 := some 0, tags := ["x"],
      file_description := none, ts := 5 }
    [("a", { content_id := "a", simhash64 := some 0, tags := ["x"] }),
     ("b", { content_id := "b", simhash64 := some 0, tags := ["x"],
             file_description := none, ts := 5 })]
    rfl).2.2.2.1 ["y"] 9

end AiFsAgent
